import Mathlib

/-!
Verification development for the legal-document RAG ingestion and retrieval
service (`src/infra/llm/document_loader.py`, `src/infra/llm/vector_store.py`,
`src/infra/llm/agent.py`, `src/core/services/IngestionService.py`).

The Python code is shallowly embedded: pure logic becomes Lean functions,
filesystem effects become explicit state passing, machine floats on sizes and
scores become exact rationals, and raising code returns `Except`.
-/

namespace DocLoader

/-! ## Constants (document_loader.py, lines 47-52) -/

/-- Constant `MAX_ARCHIVE_SIZE = 500 * 1024 * 1024` bytes. -/
def MAX_ARCHIVE_SIZE : Nat := 500 * 1024 * 1024

/-- Constant `MAX_FILES_IN_ARCHIVE = 1000`. -/
def MAX_FILES_IN_ARCHIVE : Nat := 1000

/-- Constant `MAX_EXTRACTION_RATIO = 100` (zip-bomb protection). -/
def maxExtractionRatio : Nat := 100

/-- Constant `MAX_NESTED_DEPTH = 3` (maximal archive nesting). -/
def MAX_NESTED_DEPTH : Nat := 3

/-! ## `ArchiveHandler._validate_path_safety` (lines 140-148)

A member path is a Python `str`; we work on its list of characters, matching
Python's per-codepoint indexing (`member_path[1]`). -/

/-- Embeds `ArchiveHandler._validate_path_safety`: raises `ArchiveError` when
the path starts with `/`, contains `..` anywhere, or has `:` as its second
character (Windows absolute path). Returns the raised message as `.error`. -/
def validate_path_safety (member_path : String) : Except String Unit :=
  if member_path.data.take 1 = ['/'] ∨ List.IsInfix ['.', '.'] member_path.data then
    .error ("Небезопасный путь: " ++ member_path)
  else if member_path.data.length > 1 ∧ member_path.data.get? 1 = some ':' then
    .error ("Абсолютный Windows путь: " ++ member_path)
  else
    .ok ()

/-- First error of a list of checks, `.ok` if none fails (models a Python
`for` loop in which each iteration may raise). -/
def firstError : List (Except String Unit) → Except String Unit
  | [] => .ok ()
  | .error e :: _ => .error e
  | .ok () :: rest => firstError rest

/-! ## ZIP validation (`ArchiveHandler._validate_zip`, lines 150-171) -/

/-- A ZIP member as seen by `zipfile.ZipInfo`: `filename` and declared
uncompressed `file_size` in bytes. -/
structure ZipMember where
  filename : String
  file_size : Nat
deriving Repr, DecidableEq

/-- Embeds `ArchiveHandler._validate_zip`.  Checks, in source order:
member-count ceiling, decompression ratio (only when the on-disk size is
positive; the float division `total_uncompressed / archive_size` compared
against `MAX_EXTRACTION_RATIO` is taken exactly over `ℚ`), then
`_validate_path_safety` for every member. -/
def validate_zip (members : List ZipMember) (archive_size : Nat) :
    Except String Unit :=
  if members.length > MAX_FILES_IN_ARCHIVE then
    .error "Слишком много файлов"
  else if archive_size > 0 ∧
      ((members.map (·.file_size)).sum : ℚ) / (archive_size : ℚ) >
        (maxExtractionRatio : ℚ) then
    .error "Подозрение на zip-бомбу"
  else
    firstError (members.map (fun m => validate_path_safety m.filename))

/-! ## TAR validation (`ArchiveHandler._validate_tar`, lines 173-190) -/

/-- A TAR member as seen by `tarfile.TarInfo`: `name`, declared `size`, and
the type predicates the validator consults. -/
structure TarMember where
  name : String
  size : Nat
  issym : Bool
  islnk : Bool
  isdev : Bool
deriving Repr, DecidableEq

/-- Per-member checks of `_validate_tar`'s loop body: path safety, then
link rejection, then device rejection.  Note: no decompression-ratio check
exists for TAR archives. -/
def validate_tar_member (m : TarMember) : Except String Unit :=
  match validate_path_safety m.name with
  | .error e => .error e
  | .ok () =>
    if m.issym ∨ m.islnk then .error ("Ссылки запрещены: " ++ m.name)
    else if m.isdev then .error ("Device-файлы запрещены: " ++ m.name)
    else .ok ()

/-- Embeds `ArchiveHandler._validate_tar`: member-count ceiling, then the
per-member loop.  `_validate_tar` never reads member sizes. -/
def validate_tar (members : List TarMember) : Except String Unit :=
  if members.length > MAX_FILES_IN_ARCHIVE then
    .error "Слишком много файлов"
  else
    firstError (members.map validate_tar_member)

/-- The list of files a ZIP extraction writes to disk
(`zf.extractall(temp_dir)` runs only after `_validate_zip` succeeded;
validation failure raises before anything is extracted). Embeds the
zip branch of `ArchiveHandler.extract`, lines 232-235. -/
def extract_zip_members (members : List ZipMember) (archive_size : Nat) :
    Except String (List ZipMember) :=
  match validate_zip members archive_size with
  | .error e => .error e
  | .ok () => .ok members

/-- The tar branch of `ArchiveHandler.extract`, lines 245-252: validation
first, then extraction of all members. -/
def extract_tar_members (members : List TarMember) :
    Except String (List TarMember) :=
  match validate_tar members with
  | .error e => .error e
  | .ok () => .ok members

end DocLoader

namespace VectorStore

/-! ## `QdrantVectorStore.mmr_search` (vector_store.py, lines 148-224)

Floats become exact rationals.  A fetched point that carries a vector
becomes a `Candidate` (the dict built at lines 176-182). -/

/-- One MMR candidate: `{"vector": ..., "score": ...}` (the payload does not
influence the selection order). -/
structure Candidate where
  vector : List ℚ
  score : ℚ
deriving Repr, DecidableEq

/-- Embeds `np.dot` on the embedded vectors. -/
def dot (a b : List ℚ) : ℚ := (List.zipWith (· * ·) a b).sum

/-- Out-of-range index fallback; the selection loop only ever indexes inside
`candidates`, so this value is never consulted on real runs. -/
def defaultCand : Candidate := ⟨[], 0⟩

/-- Python `max(l, key=f)` over a list of indices: the first element
attaining the maximal key (later elements replace only on a strict
increase).  `0` for the empty list, which the loop never passes. -/
def pickMax (f : Nat → ℚ) : List Nat → Nat
  | [] => 0
  | x :: xs => xs.foldl (fun b i => if f i > f b then i else b) x

/-- Python `max` of a list of rationals (`0` for the empty list, which the
code never produces: `selected` is non-empty in the diversity branch). -/
def maxQ : List ℚ → ℚ
  | [] => 0
  | x :: xs => xs.foldl max x

/-- The MMR objective of lines 197-205 for candidate `idx` given the already
`selected` indices: `lambda_mult * relevance - (1 - lambda_mult) * diversity`
with `relevance = dot(query_vector, v_idx)` and
`diversity = max over sel in selected of dot(v_idx, v_sel)`. -/
def mmrKey (lam : ℚ) (q : List ℚ) (cands : List Candidate)
    (selected : List Nat) (idx : Nat) : ℚ :=
  let v := (cands.getD idx defaultCand).vector
  let relevance := dot q v
  let diversity :=
    maxQ (selected.map (fun sel => dot v (cands.getD sel defaultCand).vector))
  lam * relevance - (1 - lam) * diversity

/-- The greedy selection loop of lines 187-209.  The first argument is the
remaining iteration count (`for _ in range(min(k, len(candidates)))`).
When `selected` is empty the pick maximizes the stored score
(`candidates[i]["score"] or 0`, which equals the score since `x or 0 = x`
for every float `x` except `0.0`, where both are `0`); afterwards it
maximizes `mmrKey`.  The pick is appended to `selected` and removed from
`remaining` (`list.remove` drops the first occurrence). -/
def mmrGo (lam : ℚ) (q : List ℚ) (cands : List Candidate) :
    Nat → List Nat → List Nat → List Nat
  | 0, selected, _ => selected
  | _ + 1, selected, [] => selected
  | t + 1, selected, r :: rs =>
    let best :=
      if selected.isEmpty then
        pickMax (fun i => (cands.getD i defaultCand).score) (r :: rs)
      else
        pickMax (mmrKey lam q cands selected) (r :: rs)
    mmrGo lam q cands t (selected ++ [best]) ((r :: rs).erase best)

/-- Default of `QdrantConfig.mmr_lambda` (config.py, line 74). -/
def mmr_lambda_default : ℚ := 7 / 10

/-- Default of `QdrantConfig.search_k` (config.py, line 72). -/
def search_k_default : Nat := 5

/-- Python's falsy-or fallback `x = x or default` on an optional float
argument: `None` and `0.0` both fall back to the default. -/
def orDefaultQ : Option ℚ → ℚ → ℚ
  | none, dflt => dflt
  | some l, dflt => if l = 0 then dflt else l

/-- Embeds `k = k or self.config.search_k` (line 156): `None` and `0` fall back. -/
def orDefaultK : Option Nat → Nat → Nat
  | none, dflt => dflt
  | some k, dflt => if k = 0 then dflt else k

/-- The index sequence `mmr_search` selects, given the raw optional
arguments `k` and `lambda_mult`, the configured `search_k` and
`mmr_lambda`, the query vector, and the fetched candidates.  Lines 156-157
resolve the optional arguments, line 188 starts from
`remaining = list(range(len(candidates)))`, line 190 iterates
`min(k, len(candidates))` times. -/
def mmr_selection (k : Option Nat) (lambda_mult : Option ℚ)
    (search_k : Nat) (mmr_lambda : ℚ)
    (q : List ℚ) (cands : List Candidate) : List Nat :=
  let kEff := orDefaultK k search_k
  let lam := orDefaultQ lambda_mult mmr_lambda
  mmrGo lam q cands (min kEff cands.length) [] (List.range cands.length)

end VectorStore

namespace Agent

/-! ## `LegalRAGAgent` query classification (agent.py, lines 24-156, 275-296)

Questions are Python `str`; we work on codepoint lists.  The regular
expressions in `CONVERSATIONAL_PATTERNS` only use anchored literals,
`\s+`, alternation groups, one optional group and `$`; each is embedded as
a dedicated matcher below. -/

/-- Minimal question length for the RAG path (`MIN_QUESTION_LENGTH`, line 49). -/
def MIN_QUESTION_LENGTH : Nat := 10

/-- Python `str.lower` on one character, covering the ASCII and Russian
alphabets, the only scripts the embedded classifier's tables use. -/
def pyLowerChar (c : Char) : Char :=
  if 'A' ≤ c ∧ c ≤ 'Z' then Char.ofNat (c.toNat + 32)
  else if 'А' ≤ c ∧ c ≤ 'Я' then Char.ofNat (c.toNat + 32)
  else if c = 'Ё' then 'ё'
  else c

/-- Python `str.lower` on a whole string, as a codepoint list. -/
def pyLower (s : String) : List Char := s.data.map pyLowerChar

/-- Python `str.strip()`: drop leading and trailing whitespace. -/
def pyStrip (l : List Char) : List Char :=
  ((l.dropWhile Char.isWhitespace).reverse.dropWhile Char.isWhitespace).reverse

/-- Embeds `question.lower().strip()` (agent.py, line 114). -/
def lowerStrip (s : String) : List Char := pyStrip (pyLower s)

/-- Consume a literal at the front of the input (regex literal). -/
def litP (lit : String) (l : List Char) : Option (List Char) :=
  if lit.data.isPrefixOf l then some (l.drop lit.data.length) else none

/-- Consume one-or-more whitespace characters greedily (regex `\s+`; every
occurrence in the pattern table is followed by a non-whitespace literal, so
the greedy reading is exact). -/
def wsP (l : List Char) : Option (List Char) :=
  match l with
  | c :: rest =>
    if c.isWhitespace then some (rest.dropWhile Char.isWhitespace) else none
  | [] => none

/-- Pattern `^привет`. -/
def patPrivet (l : List Char) : Bool := (litP "привет" l).isSome

/-- Pattern `^здравствуй`. -/
def patZdravstvuy (l : List Char) : Bool := (litP "здравствуй" l).isSome

/-- Pattern `^добрый\s+(день|вечер|утро)`. -/
def patDobry (l : List Char) : Bool :=
  match (litP "добрый" l).bind wsP with
  | some rest =>
    (litP "день" rest).isSome || (litP "вечер" rest).isSome ||
      (litP "утро" rest).isSome
  | none => false

/-- Pattern `^как\s+(дела|поживаешь|жизнь)`. -/
def patKak (l : List Char) : Bool :=
  match (litP "как" l).bind wsP with
  | some rest =>
    (litP "дела" rest).isSome || (litP "поживаешь" rest).isSome ||
      (litP "жизнь" rest).isSome
  | none => false

/-- Pattern `^что\s+(ты\s+)?умеешь` (optional group tried first, as the
regex engine would, then skipped). -/
def patChtoUmeesh (l : List Char) : Bool :=
  match (litP "что" l).bind wsP with
  | some rest =>
    (match (litP "ты" rest).bind wsP with
     | some rest2 => (litP "умеешь" rest2).isSome
     | none => false) || (litP "умеешь" rest).isSome
  | none => false

/-- Pattern `^кто\s+ты`. -/
def patKtoTy (l : List Char) : Bool :=
  ((litP "кто" l).bind wsP).bind (litP "ты") |>.isSome

/-- Pattern `^ты\s+кто`. -/
def patTyKto (l : List Char) : Bool :=
  ((litP "ты" l).bind wsP).bind (litP "кто") |>.isSome

/-- Pattern `^спасибо`. -/
def patSpasibo (l : List Char) : Bool := (litP "спасибо" l).isSome

/-- Pattern `^благодар`. -/
def patBlagodar (l : List Char) : Bool := (litP "благодар" l).isSome

/-- Pattern `^пока$` (the input is already stripped, so `$` is
end-of-string). -/
def patPoka (l : List Char) : Bool := decide (l = "пока".data)

/-- Pattern `^до\s+свидания`. -/
def patDoSvidaniya (l : List Char) : Bool :=
  ((litP "до" l).bind wsP).bind (litP "свидания") |>.isSome

/-- Pattern `^хорошо$`. -/
def patKhorosho (l : List Char) : Bool := decide (l = "хорошо".data)

/-- Pattern `^ок$`. -/
def patOk (l : List Char) : Bool := decide (l = "ок".data)

/-- Pattern `^понятно`. -/
def patPonyatno (l : List Char) : Bool := (litP "понятно" l).isSome

/-- Pattern `^ясно`. -/
def patYasno (l : List Char) : Bool := (litP "ясно" l).isSome

/-- Pattern `^помощь$`. -/
def patPomosch (l : List Char) : Bool := decide (l = "помощь".data)

/-- Pattern `^help$`. -/
def patHelp (l : List Char) : Bool := decide (l = "help".data)

/-- Pattern `^start$`. -/
def patStart (l : List Char) : Bool := decide (l = "start".data)

/-- Embeds the `CONVERSATIONAL_PATTERNS` loop (lines 117-120): does any of
the eighteen patterns `re.match` the lowered, stripped question? -/
def matchesConversationalPattern (l : List Char) : Bool :=
  patPrivet l || patZdravstvuy l || patDobry l || patKak l ||
  patChtoUmeesh l || patKtoTy l || patTyKto l || patSpasibo l ||
  patBlagodar l || patPoka l || patDoSvidaniya l || patKhorosho l ||
  patOk l || patPonyatno l || patYasno l || patPomosch l ||
  patHelp l || patStart l

/-- Length of Python `s.split()`: the number of maximal non-whitespace
runs, counted as positions whose character is non-whitespace while the
previous one (or the start sentinel) is whitespace. -/
def wordCount (l : List Char) : Nat :=
  (l.zip (' ' :: l)).countP (fun p => !p.1.isWhitespace && p.2.isWhitespace)

/-- The short-question legal stems consulted inside `_is_conversational`
(lines 126-127). -/
def shortCheckLegalKeywords : List String :=
  ["закон", "право", "статья", "договор", "суд", "иск",
   "ответственность", "штраф", "увольнение", "трудов"]

/-- Embeds `LegalRAGAgent._is_conversational` (lines 107-131): a pattern
match, or a short question (at most two words, no `?` in the original
text) containing none of the short-check legal stems. -/
def is_conversational (question : String) : Bool :=
  let ql := lowerStrip question
  if matchesConversationalPattern ql then true
  else if wordCount ql ≤ 2 ∧ question.data.contains '?' = false then
    if ¬ (shortCheckLegalKeywords.any fun kw => decide (List.IsInfix kw.data ql)) then
      true
    else false
  else false

/-- The domain keyword stems of `_is_legal_question` (lines 139-154), in
source order. -/
def legalKeywords : List String :=
  ["закон", "право", "статья", "пункт", "договор", "контракт",
   "суд", "иск", "истец", "ответчик", "заявление", "жалоба",
   "ответственность", "штраф", "наказание", "санкц",
   "увольнение", "трудов", "работодатель", "работник",
   "налог", "ндфл", "ндс", "взнос",
   "собственность", "имущество", "наследств",
   "развод", "алимент", "опека", "брак",
   "аренд", "найм", "лицензи", "разрешени",
   "регистрац", "документ", "справк",
   "обязан", "должен", "можно ли", "имею ли право",
   "как оформить", "как составить", "как подать",
   "какие документы", "какой срок", "какой порядок",
   "что делать если", "что грозит", "что будет",
   "гк рф", "тк рф", "ук рф", "коап", "конституц"]

/-- Embeds `LegalRAGAgent._is_legal_question` (lines 133-156): any keyword
stem occurs in the lowered (not stripped) question. -/
def is_legal_question (question : String) : Bool :=
  legalKeywords.any fun kw => decide (List.IsInfix kw.data (pyLower question))

/-- Routing decision of `LegalRAGAgent.query` (lines 286-296): `true` when
the retrieval path (`vector_store.search`) is taken, `false` when the
conversational path answers without retrieval. -/
def query_takes_rag (question : String) : Bool :=
  if is_conversational question then false
  else if (pyStrip question.data).length < MIN_QUESTION_LENGTH ∧
      is_legal_question question = false then false
  else true

end Agent

namespace Loader

/-! ## `LegalDocumentLoader._process_archive_recursive`
(document_loader.py, lines 564-658)

The filesystem is abstracted to the state the claims are about: the set of
temporary workspace directories currently on disk, each identified by the
counter value at its `tempfile.mkdtemp` call.  An archive on disk is a
name together with an `ArcSpec` describing what `ArchiveHandler.extract`
does with it; a regular file is a name, its (lowercased) suffix, and what
`_load_single_file` returns for it.  The entry lists are the files in the
order `ArchiveHandler.iter_files` yields them, after its skipping of
system entries. -/

/-- Supported document suffixes (`LOADERS` keys, document_loader.py lines
29-37). -/
def SUPPORTED_EXTENSIONS : List String := [".pdf", ".docx", ".doc", ".txt", ".md"]

mutual
/-- Outcome of `ArchiveHandler.extract` on one archive: raise before the
workspace is created (size or format ceiling, lines 217-225), raise after
it is created (validation failure or corrupt archive, lines 257-262, the
workspace being removed before the raise), or extract successfully into
the fresh workspace. -/
inductive ArcSpec where
  | preFail : String → ArcSpec
  | postFail : String → ArcSpec
  | ok : List Entry → ArcSpec

/-- One file discovered inside an extracted workspace: a regular file
(name, lowercased suffix, and the `_load_single_file` outcome: its list of
document texts, or the raised message) or a nested archive. -/
inductive Entry where
  | doc : String → String → Except String (List String) → Entry
  | arc : String → ArcSpec → Entry
end

/-- A loaded document: its text and its `archive_source` metadata (the
provenance chain joined by `" → "`, `_enrich_metadata` lines 550-552). -/
structure Doc where
  content : String
  archive_source : Option String
deriving Repr, DecidableEq

/-- Embeds `ArchiveProcessingStats` (document_loader.py lines 59-66): the
five declared dataclass fields. -/
structure Stats where
  files_processed : Nat
  files_skipped : Nat
  files_failed : Nat
  nested_archives : Nat
  errors : List String
deriving Repr, DecidableEq

/-- Fresh `ArchiveProcessingStats()`. -/
def Stats.empty : Stats := ⟨0, 0, 0, 0, []⟩

/-- The attribute names an `ArchiveProcessingStats` instance owns: exactly
the declared dataclass fields (lines 62-66). -/
def statsFieldNames : List String :=
  ["files_processed", "files_skipped", "files_failed", "nested_archives",
   "errors"]

/-- Abstract filesystem state: the workspace-directory ids currently on
disk and the id the next `mkdtemp` call returns. -/
structure FsState where
  nextId : Nat
  live : List Nat
deriving Repr, DecidableEq

/-- Well-formedness: every live directory id was allocated earlier. -/
def FsState.WF (st : FsState) : Prop := ∀ d ∈ st.live, d < st.nextId

/-- Embeds `ArchiveHandler.extract` acting on the filesystem state: on
`preFail` nothing was created; on `postFail` a workspace was created and
removed again before the raise (lines 257-262); on success the fresh
workspace holds the entries and stays on disk for the caller. -/
def extractFs (spec : ArcSpec) (st : FsState) :
    Except String (List Entry × Nat) × FsState :=
  match spec with
  | .preFail msg => (.error msg, st)
  | .postFail msg => (.error msg, ⟨st.nextId + 1, st.live⟩)
  | .ok entries =>
    (.ok (entries, st.nextId), ⟨st.nextId + 1, st.live ++ [st.nextId]⟩)

/-- Embeds `ArchiveHandler.cleanup`: remove the directory from disk. -/
def cleanupFs (d : Nat) (st : FsState) : FsState :=
  ⟨st.nextId, st.live.filter (· ≠ d)⟩

/-- Provenance chain joined as `" → ".join(chain)`. -/
def joinChain (chain : List String) : String := String.intercalate " → " chain

/-- The depth-exceeded error recorded at lines 589-596. -/
def depthErrorMsg (maxDepth : Nat) (chain : List String) : String :=
  "Превышена макс. глубина вложенности (" ++ toString maxDepth ++ "): " ++
    joinChain chain

/-- The `ArchiveError` record of lines 646-649. -/
def archiveErrorMsg (name msg : String) : String :=
  "Ошибка архива " ++ name ++ ": " ++ msg

/-- The per-file error record of lines 640-644. -/
def fileErrorMsg (name msg : String) : String :=
  "Ошибка " ++ name ++ ": " ++ msg

mutual
/-- Embeds `_process_archive_recursive` on one archive.  `maxDepth` is the
`MAX_NESTED_DEPTH` constant, `fuel` a structural bound never hit on real
runs (the depth ceiling fires first whenever `fuel > maxDepth - depth`).
Returns the yielded documents, the accumulated stats and the filesystem
state.  Mirrors, in order: the depth check (lines 589-596), extraction
with `ArchiveError` capture (lines 600-649), and the `finally` cleanup of
the workspace (lines 656-658). -/
def processArchiveRec (maxDepth fuel : Nat) (name : String) (spec : ArcSpec)
    (chain : List String) (depth : Nat) (stats : Stats) (st : FsState) :
    List Doc × Stats × FsState :=
  let chain' := chain ++ [name]
  if maxDepth ≤ depth then
    ([], { stats with errors := stats.errors ++ [depthErrorMsg maxDepth chain'] },
      st)
  else
    match fuel with
    | 0 => ([], stats, st)
    | fuel + 1 =>
      match extractFs spec st with
      | (.error e, st') =>
        ([], { stats with errors := stats.errors ++ [archiveErrorMsg name e] },
          st')
      | (.ok (entries, d), st') =>
        let r := processEntries maxDepth fuel entries chain' depth stats st'
        (r.1, r.2.1, cleanupFs d r.2.2)
termination_by (fuel, 0, 0)

/-- The `for file_path in files` loop of lines 608-644, yielding documents
and threading stats and filesystem state. -/
def processEntries (maxDepth fuel : Nat) (entries : List Entry)
    (chain' : List String) (depth : Nat) (stats : Stats) (st : FsState) :
    List Doc × Stats × FsState :=
  match entries with
  | [] => ([], stats, st)
  | .arc name spec :: rest =>
    let r := processArchiveRec maxDepth fuel name spec chain' (depth + 1)
      { stats with nested_archives := stats.nested_archives + 1 } st
    let r2 := processEntries maxDepth fuel rest chain' depth r.2.1 r.2.2
    (r.1 ++ r2.1, r2.2)
  | .doc name suffix load :: rest =>
    if suffix ∈ SUPPORTED_EXTENSIONS then
      match load with
      | .ok contents =>
        if contents.isEmpty then
          processEntries maxDepth fuel rest chain' depth
            { stats with files_skipped := stats.files_skipped + 1 } st
        else
          let docs := contents.map fun c => Doc.mk c (some (joinChain chain'))
          let r := processEntries maxDepth fuel rest chain' depth
            { stats with files_processed := stats.files_processed + 1 } st
          (docs ++ r.1, r.2)
      | .error e =>
        processEntries maxDepth fuel rest chain' depth
          { stats with files_failed := stats.files_failed + 1,
                       errors := stats.errors ++ [fileErrorMsg name e] } st
    else
      processEntries maxDepth fuel rest chain' depth
        { stats with files_skipped := stats.files_skipped + 1 } st
termination_by (fuel, 1, entries.length)
end

/-- Embeds `LegalDocumentLoader.load_archive` (lines 393-431): run the
recursion from a fresh `ArchiveProcessingStats` at depth `0` with an empty
chain, under the source constant `MAX_NESTED_DEPTH`. -/
def load_archive (name : String) (spec : ArcSpec) (st : FsState) :
    List Doc × Stats × FsState :=
  processArchiveRec DocLoader.MAX_NESTED_DEPTH (DocLoader.MAX_NESTED_DEPTH + 1)
    name spec [] 0 Stats.empty st

end Loader

namespace Ingestion

/-! ## `IngestionService` (src/core/services/IngestionService.py) -/

/-- The per-file record shape `IngestionService._process_archive` reads
from `stats.processed_files` (lines 163-169): `.filename`,
`.chunks_count`, `.archive_path`. -/
structure ProcessedFileRecord where
  filename : String
  chunks_count : Nat
  archive_path : Option String
deriving Repr, DecidableEq

/-- One entry of `IngestionResult.processed_files` (lines 164-170). -/
structure ProcessedEntry where
  filename : String
  chunks : Nat
  archive_path : Option String
deriving Repr, DecidableEq

/-- Embeds the `IngestionResult` dataclass (lines 22-33). -/
structure IngestionResult where
  chunks_count : Nat
  files_processed : Nat
  file_type : String
  processed_files : List ProcessedEntry
  errors : List String
deriving Repr, DecidableEq

/-- Python attribute lookup on an `ArchiveProcessingStats` instance
succeeds exactly for the declared dataclass fields. -/
def statsHasAttr (attr : String) : Bool :=
  Loader.statsFieldNames.contains attr

/-- The entry built from one record by lines 164-170 of the service. -/
def entryOfRecord (r : ProcessedFileRecord) : ProcessedEntry :=
  ⟨r.filename, r.chunks_count, r.archive_path⟩

/-- Embeds `IngestionService._process_archive` after `load_archive` and
chunk indexing returned (lines 161-178): iterate `stats.processed_files`
and build the result.  The loop's first step is the attribute lookup
`stats.processed_files`; the `ArchiveProcessingStats` dataclass declares
no such field, so on a real `Stats` value the lookup raises
`AttributeError` (the `.ok` arm below is unreachable: its record list can
only be the empty placeholder). -/
def process_archive_service (stats : Loader.Stats) (chunks_count : Nat) :
    Except String IngestionResult :=
  if statsHasAttr "processed_files" then
    .ok { chunks_count := chunks_count,
          files_processed := stats.files_processed,
          file_type := "archive",
          processed_files := ([] : List ProcessedFileRecord).map entryOfRecord,
          errors := stats.errors.take 10 }
  else
    .error "AttributeError: ArchiveProcessingStats has no attribute processed_files"

end Ingestion

namespace Claims

/-! ## Claim-side definitions

Predicates formalising the vocabulary of the specification's claims, plus
restricted replay functions used to characterise the embedded loader on
the input shapes the claims quantify over. -/

/-- Segments of a member path at `/` separators (the shape of Python's
`p.split("/")`). -/
def slashSplit : List Char → List (List Char)
  | [] => [[]]
  | c :: rest =>
    match slashSplit rest with
    | [] => [[]]
    | w :: ws => if c = '/' then [] :: w :: ws else (c :: w) :: ws

/-- The claim's notion of an unsafe member path: absolute (leading `/`),
starting with a Windows drive prefix (`:` as second character), or
containing a parent-directory segment (`..` as a `/`-separated
component). -/
def specUnsafeMemberPath (p : String) : Prop :=
  p.data.take 1 = ['/'] ∨ (∃ c, p.data.take 2 = [c, ':']) ∨
    ['.', '.'] ∈ slashSplit p.data

end Claims

namespace Claims

/-! ## Path-safety lemmas -/

theorem slashSplit_ne_nil (l : List Char) : slashSplit l ≠ [] := by
  cases l with
  | nil => simp [slashSplit]
  | cons c rest =>
    cases h : slashSplit rest with
    | nil => simp [slashSplit, h]
    | cons w ws =>
      simp only [slashSplit, h]
      split <;> simp

theorem slashSplit_spec (l : List Char) :
    (∀ s ∈ slashSplit l, s <:+: l) ∧
      ∀ w ws, slashSplit l = w :: ws → w <+: l := by
  induction l with
  | nil =>
    constructor
    · intro s hs
      simp [slashSplit] at hs
      simp [hs]
    · intro w ws h
      simp [slashSplit] at h
      simp [h.1]
  | cons c rest ih =>
    obtain ⟨ih1, ih2⟩ := ih
    cases hr : slashSplit rest with
    | nil => exact absurd hr (slashSplit_ne_nil rest)
    | cons w ws =>
      by_cases hc : c = '/'
      · constructor
        · intro s hs
          simp only [slashSplit, hr, if_pos hc] at hs
          rcases List.mem_cons.mp hs with hs | hs
          · simp [hs]
          · exact List.infix_cons (ih1 s (hr ▸ hs))
        · intro w' ws' h
          simp only [slashSplit, hr, if_pos hc] at h
          injection h with h1 h2
          rw [← h1]
          exact List.nil_prefix
      · constructor
        · intro s hs
          simp only [slashSplit, hr, if_neg hc] at hs
          rcases List.mem_cons.mp hs with hs | hs
          · have hp : w <+: rest := ih2 w ws hr
            have hpp : c :: w <+: c :: rest := List.cons_prefix_cons.mpr ⟨rfl, hp⟩
            exact hs ▸ hpp.isInfix
          · exact List.infix_cons (ih1 s (hr ▸ List.mem_cons_of_mem w hs))
        · intro w' ws' h
          simp only [slashSplit, hr, if_neg hc] at h
          injection h with h1 h2
          rw [← h1]
          exact List.cons_prefix_cons.mpr ⟨rfl, ih2 w ws hr⟩

theorem specUnsafe_validate_error (p : String) (h : specUnsafeMemberPath p) :
    ∃ e, DocLoader.validate_path_safety p = .error e := by
  unfold DocLoader.validate_path_safety
  rcases h with h1 | ⟨c, h2⟩ | h3
  · rw [if_pos (Or.inl h1)]
    exact ⟨_, rfl⟩
  · by_cases hfirst : p.data.take 1 = ['/'] ∨ ['.', '.'] <:+: p.data
    · rw [if_pos hfirst]
      exact ⟨_, rfl⟩
    · rw [if_neg hfirst]
      have hdata : ∃ t, p.data = c :: ':' :: t := by
        cases hd : p.data with
        | nil => simp [hd] at h2
        | cons a t1 =>
          cases t1 with
          | nil => simp [hd] at h2
          | cons b t2 =>
            simp [hd] at h2
            exact ⟨t2, by simp [h2.1, h2.2]⟩
      obtain ⟨t, ht⟩ := hdata
      rw [if_pos ⟨by simp [ht], by simp [ht]⟩]
      exact ⟨_, rfl⟩
  · have : ['.', '.'] <:+: p.data := (slashSplit_spec p.data).1 _ h3
    rw [if_pos (Or.inr this)]
    exact ⟨_, rfl⟩

theorem firstError_error (l : List (Except String Unit))
    (h : ∃ x ∈ l, ∃ e, x = .error e) :
    ∃ e, DocLoader.firstError l = .error e := by
  induction l with
  | nil => simp at h
  | cons x rest ih =>
    match x with
    | .error e => exact ⟨e, rfl⟩
    | .ok () =>
      rcases h with ⟨y, hy, e, he⟩
      rcases List.mem_cons.mp hy with hy | hy
      · rw [hy] at he
        exact absurd he (by simp)
      · exact ih ⟨y, hy, e, he⟩

end Claims

namespace Claims

/-- C2: every archive holding at least one member whose path is absolute,
starts with a Windows drive prefix, or contains a parent-directory
segment is rejected as a whole with a typed `ArchiveError`, and no member
of it is extracted — for ZIP and TAR archives alike. -/
theorem unsafe_member_aborts_whole_archive :
    (∀ (members : List DocLoader.ZipMember) (archive_size : Nat),
      (∃ m ∈ members, specUnsafeMemberPath m.filename) →
      ∃ e, DocLoader.extract_zip_members members archive_size = .error e) ∧
    ∀ members : List DocLoader.TarMember,
      (∃ m ∈ members, specUnsafeMemberPath m.name) →
      ∃ e, DocLoader.extract_tar_members members = .error e := by
  constructor
  · intro members archive_size ⟨m, hm, hunsafe⟩
    have hval : ∃ e, DocLoader.validate_zip members archive_size = .error e := by
      unfold DocLoader.validate_zip
      split
      · exact ⟨_, rfl⟩
      · split
        · exact ⟨_, rfl⟩
        · refine firstError_error _ ⟨DocLoader.validate_path_safety m.filename,
            List.mem_map_of_mem _ hm, ?_⟩
          obtain ⟨e, he⟩ := specUnsafe_validate_error m.filename hunsafe
          exact ⟨e, he⟩
    obtain ⟨e, he⟩ := hval
    exact ⟨e, by simp [DocLoader.extract_zip_members, he]⟩
  · intro members ⟨m, hm, hunsafe⟩
    have hval : ∃ e, DocLoader.validate_tar members = .error e := by
      unfold DocLoader.validate_tar
      split
      · exact ⟨_, rfl⟩
      · refine firstError_error _ ⟨DocLoader.validate_tar_member m,
          List.mem_map_of_mem _ hm, ?_⟩
        obtain ⟨e, he⟩ := specUnsafe_validate_error m.name hunsafe
        exact ⟨e, by simp [DocLoader.validate_tar_member, he]⟩
    obtain ⟨e, he⟩ := hval
    exact ⟨e, by simp [DocLoader.extract_tar_members, he]⟩

/-- Witness for C2: a concrete zip-slip member `../evil.txt` and a
concrete absolute tar member `/etc/passwd` are both rejected. -/
theorem unsafe_member_aborts_whole_archive_witness :
    (∃ e, DocLoader.extract_zip_members [⟨"../evil.txt", 1⟩] 10 = .error e) ∧
    ∃ e, DocLoader.extract_tar_members [⟨"/etc/passwd", 1, false, false, false⟩]
      = .error e :=
  ⟨unsafe_member_aborts_whole_archive.1 [⟨"../evil.txt", 1⟩] 10
    ⟨⟨"../evil.txt", 1⟩, by simp, Or.inr (Or.inr (by decide))⟩,
   unsafe_member_aborts_whole_archive.2 [⟨"/etc/passwd", 1, false, false, false⟩]
    ⟨⟨"/etc/passwd", 1, false, false, false⟩, by simp, Or.inl (by decide)⟩⟩

/-- C3 counterexample: a TAR archive whose single member declares
1,000,000 uncompressed bytes while the archive occupies 100 bytes on disk
(ratio 10,000× > 100×) passes validation and is extracted in full — the
decompression-ratio bound is not applied to the TAR format. -/
theorem tar_ratio_not_checked :
    (100 : ℚ) * 100 < (1000000 : ℚ) ∧
    DocLoader.validate_tar [⟨"data.txt", 1000000, false, false, false⟩] = .ok ()
      ∧
    DocLoader.extract_tar_members [⟨"data.txt", 1000000, false, false, false⟩]
      = .ok [⟨"data.txt", 1000000, false, false, false⟩] :=
  ⟨by norm_num, rfl, rfl⟩

/-- C3 amended: the decompression-ratio bound holds for ZIP archives: any
ZIP whose declared total uncompressed size exceeds `100×` its positive
on-disk size is rejected before anything is extracted (with the zip-bomb
error whenever the member-count ceiling is met); TAR archives are not
ratio-checked (see the counterexample). -/
theorem zip_ratio_rejected (members : List DocLoader.ZipMember)
    (archive_size : Nat) (h1 : 0 < archive_size)
    (h2 : DocLoader.maxExtractionRatio * archive_size <
      (members.map (·.file_size)).sum)
    (h3 : members.length ≤ DocLoader.MAX_FILES_IN_ARCHIVE) :
    DocLoader.validate_zip members archive_size = .error "Подозрение на zip-бомбу"
      ∧
    ∃ e, DocLoader.extract_zip_members members archive_size = .error e := by
  have hsum : (members.map (fun m => (m.file_size : ℚ))).sum =
      (((members.map (·.file_size)).sum : Nat) : ℚ) := by
    rw [Nat.cast_list_sum, List.map_map]
    rfl
  have hratio : (members.map (fun m => (m.file_size : ℚ))).sum / (archive_size : ℚ)
      > (DocLoader.maxExtractionRatio : ℚ) := by
    rw [gt_iff_lt, lt_div_iff₀ (by exact_mod_cast h1), hsum]
    exact_mod_cast h2
  have hval : DocLoader.validate_zip members archive_size =
      .error "Подозрение на zip-бомбу" := by
    unfold DocLoader.validate_zip
    rw [if_neg (not_lt.mpr h3), if_pos ⟨h1, hratio⟩]
  refine ⟨hval, "Подозрение на zip-бомбу", ?_⟩
  simp [DocLoader.extract_zip_members, hval]

/-- Witness for C3's amended theorem: one member declaring 10,001 bytes in
a 100-byte archive is rejected as a zip bomb. -/
theorem zip_ratio_rejected_witness :
    DocLoader.validate_zip [⟨"big.txt", 10001⟩] 100 =
      .error "Подозрение на zip-бомбу" :=
  (zip_ratio_rejected [⟨"big.txt", 10001⟩] 100 (by norm_num)
    (by norm_num [DocLoader.maxExtractionRatio])
    (by norm_num [DocLoader.MAX_FILES_IN_ARCHIVE])).1

/-- C10: the path-safety check rejects every member path containing the
two-character substring `..` anywhere — not only genuine parent-directory
segments — so an archive holding a harmless regular file named
`report..pdf` is rejected in its entirety. -/
theorem dotdot_substring_rejects :
    (∀ p : String, ['.', '.'] <:+: p.data →
      DocLoader.validate_path_safety p = .error ("Небезопасный путь: " ++ p)) ∧
    DocLoader.extract_zip_members [⟨"report..pdf", 4⟩] 100 =
      .error "Небезопасный путь: report..pdf" := by
  constructor
  · intro p hp
    unfold DocLoader.validate_path_safety
    rw [if_pos (Or.inr hp)]
  · have hpath : DocLoader.validate_path_safety "report..pdf" =
        .error "Небезопасный путь: report..pdf" := by
      unfold DocLoader.validate_path_safety
      rw [if_pos (Or.inr (by decide))]
      congr 1
    have hval : DocLoader.validate_zip [⟨"report..pdf", 4⟩] 100 =
        .error "Небезопасный путь: report..pdf" := by
      unfold DocLoader.validate_zip
      rw [if_neg (by norm_num [DocLoader.MAX_FILES_IN_ARCHIVE])]
      rw [if_neg (by
        rintro ⟨h1, h2⟩
        simp [DocLoader.maxExtractionRatio] at h2
        norm_num at h2)]
      simp [DocLoader.firstError, hpath]
    simp [DocLoader.extract_zip_members, hval]

/-- Witness for C10: the file name `a..b` (no parent-directory segment) is
rejected by the path-safety check. -/
theorem dotdot_substring_rejects_witness :
    DocLoader.validate_path_safety "a..b" =
      .error ("Небезопасный путь: " ++ "a..b") :=
  dotdot_substring_rejects.1 "a..b" (by decide)

end Claims

namespace Claims

/-! ## MMR selection lemmas -/

theorem pickMax_mem (f : Nat → ℚ) (x : Nat) (xs : List Nat) :
    VectorStore.pickMax f (x :: xs) ∈ x :: xs := by
  induction xs generalizing x with
  | nil => simp [VectorStore.pickMax]
  | cons i xs ih =>
    have heq : VectorStore.pickMax f (x :: i :: xs) =
        VectorStore.pickMax f ((if f i > f x then i else x) :: xs) := rfl
    rw [heq]
    have h := ih (if f i > f x then i else x)
    rcases List.mem_cons.mp h with h | h
    · rw [h]
      split <;> simp
    · simp [List.mem_cons_of_mem, h]

theorem pickMax_le (f : Nat → ℚ) (xs : List Nat) :
    ∀ (x j : Nat), j ∈ x :: xs → f j ≤ f (VectorStore.pickMax f (x :: xs)) := by
  induction xs with
  | nil =>
    intro x j hj
    rcases List.mem_cons.mp hj with hj | hj
    · rw [hj]
      exact le_refl _
    · simp at hj
  | cons i xs ih =>
    intro x j hj
    have heq : VectorStore.pickMax f (x :: i :: xs) =
        VectorStore.pickMax f ((if f i > f x then i else x) :: xs) := rfl
    rw [heq]
    have hb : ∀ y, y = x ∨ y = i →
        f y ≤ f (if f i > f x then i else x) := by
      intro y hy
      rcases hy with hy | hy <;> rw [hy] <;> split <;>
        first
        | exact le_refl _
        | exact le_of_lt (by assumption)
        | exact le_of_not_lt (by assumption)
    rcases List.mem_cons.mp hj with hj | hj
    · exact le_trans (hb j (Or.inl hj))
        (ih _ _ (List.mem_cons_self _ _))
    · rcases List.mem_cons.mp hj with hj | hj
      · exact le_trans (hb j (Or.inr hj))
          (ih _ _ (List.mem_cons_self _ _))
      · exact ih _ j (List.mem_cons_of_mem _ hj)

theorem pickMax_congr (f g : Nat → ℚ) (xs : List Nat) :
    ∀ x : Nat, (∀ j ∈ x :: xs, g j = f j) →
      VectorStore.pickMax g (x :: xs) = VectorStore.pickMax f (x :: xs) := by
  induction xs with
  | nil => intro x h; rfl
  | cons i xs ih =>
    intro x h
    have hgx := h x (List.mem_cons_self _ _)
    have hgi := h i (List.mem_cons_of_mem _ (List.mem_cons_self _ _))
    have heqg : VectorStore.pickMax g (x :: i :: xs) =
        VectorStore.pickMax g ((if g i > g x then i else x) :: xs) := rfl
    have heqf : VectorStore.pickMax f (x :: i :: xs) =
        VectorStore.pickMax f ((if f i > f x then i else x) :: xs) := rfl
    rw [heqg, heqf]
    have hcond : g i > g x ↔ f i > f x := by rw [hgx, hgi]
    rw [if_congr hcond rfl rfl]
    refine ih (if f i > f x then i else x) ?_
    intro j hj
    rcases List.mem_cons.mp hj with hj | hj
    · rw [hj]
      split
      · exact hgi
      · exact hgx
    · exact h j (List.mem_cons_of_mem _ (List.mem_cons_of_mem _ hj))

theorem mmrKey_one (q : List ℚ) (cands : List VectorStore.Candidate)
    (sel : List Nat) (i : Nat) :
    VectorStore.mmrKey 1 q cands sel i =
      VectorStore.dot q (cands.getD i VectorStore.defaultCand).vector := by
  simp [VectorStore.mmrKey]

end Claims

namespace Claims

theorem mmrGo_nodup (lam : ℚ) (q : List ℚ) (cands : List VectorStore.Candidate) :
    ∀ (t : Nat) (sel rem : List Nat), sel.Nodup → rem.Nodup →
      (∀ i ∈ sel, i ∉ rem) →
      (VectorStore.mmrGo lam q cands t sel rem).Nodup := by
  intro t
  induction t with
  | zero => intro sel rem hsel _ _; simpa [VectorStore.mmrGo] using hsel
  | succ t ih =>
    intro sel rem hsel hrem hdisj
    cases rem with
    | nil => simpa [VectorStore.mmrGo] using hsel
    | cons r rs =>
      simp only [VectorStore.mmrGo]
      set b := if sel.isEmpty then
          VectorStore.pickMax (fun i => (cands.getD i VectorStore.defaultCand).score)
            (r :: rs)
        else VectorStore.pickMax (VectorStore.mmrKey lam q cands sel) (r :: rs)
        with hb
      have hbmem : b ∈ r :: rs := by
        rw [hb]
        split <;> exact pickMax_mem _ _ _
      refine ih (sel ++ [b]) ((r :: rs).erase b) ?_ (hrem.erase b) ?_
      · rw [List.nodup_append]
        refine ⟨hsel, List.nodup_singleton b, ?_⟩
        intro i hi hmem
        have : i = b := by simpa using hmem
        exact hdisj i hi (this ▸ hbmem)
      · intro i hi
        rcases List.mem_append.mp hi with hi | hi
        · intro hmem
          exact hdisj i hi (List.mem_of_mem_erase hmem)
        · have : i = b := by simpa using hi
          rw [this]
          intro hmem
          exact ((hrem.mem_erase_iff).mp hmem).1 rfl

/-- C7: for every candidate list, every `k` and every `lambda_mult`, the
index sequence the MMR loop selects contains no duplicate candidate
index. -/
theorem mmr_selection_nodup (k : Option Nat) (lambda_mult : Option ℚ)
    (search_k : Nat) (mmr_lambda : ℚ) (q : List ℚ)
    (cands : List VectorStore.Candidate) :
    (VectorStore.mmr_selection k lambda_mult search_k mmr_lambda q cands).Nodup := by
  unfold VectorStore.mmr_selection
  exact mmrGo_nodup _ _ _ _ [] _ List.nodup_nil (List.nodup_range _)
    (by intro i hi; simp at hi)

/-- C9: the public `mmr_search` cannot run with `lambda_mult = 0`: the
falsy-or fallback `lambda_mult or self.config.mmr_lambda` replaces both
`None` and `0.0` by the configured value, so with the default
configuration the effective lambda is never `0`, and a call passing `0.0`
selects exactly what a call passing `None` selects. -/
theorem mmr_lambda_zero_unreachable :
    (∀ lam : Option ℚ,
      VectorStore.orDefaultQ lam VectorStore.mmr_lambda_default ≠ 0) ∧
    ∀ (k : Option Nat) (search_k : Nat) (mmr_lambda : ℚ) (q : List ℚ)
      (cands : List VectorStore.Candidate),
      VectorStore.mmr_selection k (some 0) search_k mmr_lambda q cands =
        VectorStore.mmr_selection k none search_k mmr_lambda q cands := by
  constructor
  · rintro (_ | l)
    · norm_num [VectorStore.orDefaultQ, VectorStore.mmr_lambda_default]
    · by_cases hl : l = 0 <;>
        simp [VectorStore.orDefaultQ, VectorStore.mmr_lambda_default, hl]
  · intro k search_k mmr_lambda q cands
    simp [VectorStore.mmr_selection, VectorStore.orDefaultQ]

end Claims

namespace Claims

theorem mmrGo_sorted (q : List ℚ) (cands : List VectorStore.Candidate)
    (h : ∀ i, (cands.getD i VectorStore.defaultCand).score =
      VectorStore.dot q (cands.getD i VectorStore.defaultCand).vector) :
    ∀ (t : Nat) (sel rem : List Nat),
      List.Chain' (· ≥ ·)
        (sel.map fun i => (cands.getD i VectorStore.defaultCand).score) →
      (∀ last ∈ sel.getLast?, ∀ j ∈ rem,
        (cands.getD j VectorStore.defaultCand).score ≤
          (cands.getD last VectorStore.defaultCand).score) →
      List.Chain' (· ≥ ·)
        ((VectorStore.mmrGo 1 q cands t sel rem).map
          fun i => (cands.getD i VectorStore.defaultCand).score) := by
  intro t
  induction t with
  | zero => intro sel rem hchain _; simpa [VectorStore.mmrGo] using hchain
  | succ t ih =>
    intro sel rem hchain hbound
    cases rem with
    | nil => simpa [VectorStore.mmrGo] using hchain
    | cons r rs =>
      simp only [VectorStore.mmrGo]
      have hbeq :
          (if sel.isEmpty then
            VectorStore.pickMax
              (fun i => (cands.getD i VectorStore.defaultCand).score) (r :: rs)
          else
            VectorStore.pickMax (VectorStore.mmrKey 1 q cands sel) (r :: rs)) =
          VectorStore.pickMax
            (fun i => (cands.getD i VectorStore.defaultCand).score) (r :: rs) := by
        split
        · rfl
        · refine pickMax_congr _ _ rs r fun j _ => ?_
          rw [mmrKey_one]
          exact (h j).symm
      rw [hbeq]
      refine ih _ _ ?_ ?_
      · rw [List.map_append, List.chain'_append]
        refine ⟨hchain, by simp, ?_⟩
        intro x hx y hy
        rw [List.getLast?_map] at hx
        cases hlast : sel.getLast? with
        | none => rw [hlast] at hx; exact absurd hx (by simp)
        | some last =>
          rw [hlast] at hx
          have hx' : x = (cands.getD last VectorStore.defaultCand).score := by
            have hmx := Option.mem_def.mp hx
            simp only [Option.map_some'] at hmx
            exact (Option.some.inj hmx).symm
          have hy' : y = (cands.getD
              (VectorStore.pickMax
                (fun i => (cands.getD i VectorStore.defaultCand).score) (r :: rs))
              VectorStore.defaultCand).score := by
            have hmy := Option.mem_def.mp hy
            simp only [List.head?] at hmy
            exact (Option.some.inj hmy).symm
          rw [hx', hy']
          exact hbound last (by rw [hlast]; rfl) _ (pickMax_mem _ _ _)
      · intro last' hlast' j hj
        rw [List.getLast?_concat] at hlast'
        have hlb : last' = VectorStore.pickMax
            (fun i => (cands.getD i VectorStore.defaultCand).score) (r :: rs) :=
          (Option.some.inj (Option.mem_def.mp hlast')).symm
        rw [hlb]
        exact pickMax_le (fun i => (cands.getD i VectorStore.defaultCand).score)
          rs r j (List.mem_of_mem_erase hj)

/-- C6 counterexample: with `λ = 1.0` the first pick maximizes the stored
score while later picks maximize the dot-product relevance, so when the
two disagree the returned order is sorted by neither: for the candidates
`(vector, score) = ([0], 10), ([5], 1), ([2], 2)` and query `[1]`, the
selection is `[0, 1, 2]`, whose stored scores `[10, 1, 2]` and relevances
`[0, 5, 2]` are both not in descending order. -/
theorem mmr_lambda_one_not_sorted_cex :
    VectorStore.mmr_selection (some 3) (some 1) 5 (7 / 10) [1]
      [⟨[0], 10⟩, ⟨[5], 1⟩, ⟨[2], 2⟩] = [0, 1, 2] ∧
    ¬ List.Chain' (· ≥ ·)
      (([0, 1, 2] : List Nat).map fun i =>
        (([⟨[0], 10⟩, ⟨[5], 1⟩, ⟨[2], 2⟩] :
          List VectorStore.Candidate).getD i VectorStore.defaultCand).score) ∧
    ¬ List.Chain' (· ≥ ·)
      (([0, 1, 2] : List Nat).map fun i =>
        VectorStore.dot [1]
          (([⟨[0], 10⟩, ⟨[5], 1⟩, ⟨[2], 2⟩] :
            List VectorStore.Candidate).getD i VectorStore.defaultCand).vector) := by
  refine ⟨?_, ?_, ?_⟩
  · norm_num [VectorStore.mmr_selection, VectorStore.orDefaultQ,
      VectorStore.orDefaultK, VectorStore.mmrGo, VectorStore.pickMax,
      VectorStore.mmrKey, VectorStore.dot, VectorStore.maxQ,
      VectorStore.defaultCand, List.range_succ]
  · norm_num [VectorStore.defaultCand, List.chain'_cons]
  · norm_num [VectorStore.dot, VectorStore.defaultCand, List.chain'_cons]

/-- C6 amended: with `λ = 1.0` the diversity term vanishes, and provided
each candidate's stored score equals the dot product of the query vector
with the candidate's vector (the spec's pre-normalized assumption, under
which first and later picks use the same key), the selection is in
descending (non-increasing) order of raw relevance score — for every
candidate list and every `k`. -/
theorem mmr_lambda_one_sorted (k : Option Nat) (search_k : Nat)
    (mmr_lambda : ℚ) (q : List ℚ) (cands : List VectorStore.Candidate)
    (h : ∀ i, (cands.getD i VectorStore.defaultCand).score =
      VectorStore.dot q (cands.getD i VectorStore.defaultCand).vector) :
    List.Chain' (· ≥ ·)
      ((VectorStore.mmr_selection k (some 1) search_k mmr_lambda q cands).map
        fun i => (cands.getD i VectorStore.defaultCand).score) := by
  unfold VectorStore.mmr_selection
  have h1 : VectorStore.orDefaultQ (some 1) mmr_lambda = 1 := by
    norm_num [VectorStore.orDefaultQ]
  rw [h1]
  exact mmrGo_sorted q cands h _ [] _ (by simp) (by simp)

/-- Witness for C6's amended theorem: candidates whose scores equal the
dot products `([3], 3), ([1], 1), ([2], 2)` against query `[1]` come back
in non-increasing score order. -/
theorem mmr_lambda_one_sorted_witness :
    List.Chain' (· ≥ ·)
      ((VectorStore.mmr_selection (some 3) (some 1) 5 (7 / 10) [1]
        [⟨[3], 3⟩, ⟨[1], 1⟩, ⟨[2], 2⟩]).map
        fun i => (([⟨[3], 3⟩, ⟨[1], 1⟩, ⟨[2], 2⟩] :
          List VectorStore.Candidate).getD i VectorStore.defaultCand).score) :=
  mmr_lambda_one_sorted (some 3) 5 (7 / 10) [1] [⟨[3], 3⟩, ⟨[1], 1⟩, ⟨[2], 2⟩]
    (fun i => by
      match i with
      | 0 => norm_num [VectorStore.dot]
      | 1 => norm_num [VectorStore.dot]
      | 2 => norm_num [VectorStore.dot]
      | n + 3 =>
        rw [List.getD_eq_default _ _ (by simp)]
        norm_num [VectorStore.dot, VectorStore.defaultCand])

end Claims

namespace Claims

/-- C8 counterexample: the bare legal-code reference `"гк рф"` contains a
configured domain keyword, yet the classifier marks it conversational (two
words, no question mark, and none of the short-question legal stems occurs
in it), so the query router skips retrieval — the domain keyword does not
win "regardless of the question's length". -/
theorem classifier_keyword_cex :
    Agent.is_legal_question "гк рф" = true ∧
    Agent.is_conversational "гк рф" = true ∧
    Agent.query_takes_rag "гк рф" = false :=
  ⟨by decide, by decide, by decide⟩

/-- C8 amended: `"привет"` and `"спасибо"` classify conversational; a
question containing a configured domain keyword takes the retrieval path
provided it does not match a conversational pattern and either has more
than two words or contains a question mark (the short-question heuristic
otherwise overrides domain keywords that are absent from its dedicated
stem list, as `"гк рф"` shows). -/
theorem classifier_keyword_routes_rag :
    Agent.is_conversational "привет" = true ∧
    Agent.is_conversational "спасибо" = true ∧
    ∀ q : String, Agent.is_legal_question q = true →
      Agent.matchesConversationalPattern (Agent.lowerStrip q) = false →
      (2 < Agent.wordCount (Agent.lowerStrip q) ∨ q.data.contains '?' = true) →
      Agent.query_takes_rag q = true := by
  refine ⟨by decide, by decide, ?_⟩
  intro q hleg hpat hlen
  have hconv : Agent.is_conversational q = false := by
    unfold Agent.is_conversational
    simp only [hpat, Bool.false_eq_true, if_false]
    rw [if_neg]
    rintro ⟨h1, h2⟩
    rcases hlen with hlen | hlen
    · exact absurd hlen (not_lt.mpr h1)
    · rw [hlen] at h2
      simp at h2
  unfold Agent.query_takes_rag
  simp [hconv, hleg]

/-- Witness for C8's amended theorem: the four-word question
`"что значит гк рф"`, which contains the keyword `"гк рф"` and matches no
conversational pattern, takes the retrieval path. -/
theorem classifier_keyword_routes_rag_witness :
    Agent.query_takes_rag "что значит гк рф" = true :=
  classifier_keyword_routes_rag.2.2 "что значит гк рф" (by decide) (by decide)
    (Or.inl (by decide))

end Claims

namespace Claims

/-! ## Filesystem-state preservation of the recursive loader -/

theorem entries_fs_of_arc (fuel : Nat)
    (harc : ∀ (maxD : Nat) (name : String) (spec : Loader.ArcSpec)
      (chain : List String) (depth : Nat) (stats : Loader.Stats)
      (st : Loader.FsState), st.WF →
      (Loader.processArchiveRec maxD fuel name spec chain depth stats st).2.2.live
        = st.live ∧
      st.nextId ≤
        (Loader.processArchiveRec maxD fuel name spec chain depth stats st).2.2.nextId) :
    ∀ (maxD : Nat) (entries : List Loader.Entry) (chain : List String)
      (depth : Nat) (stats : Loader.Stats) (st : Loader.FsState), st.WF →
      (Loader.processEntries maxD fuel entries chain depth stats st).2.2.live
        = st.live ∧
      st.nextId ≤
        (Loader.processEntries maxD fuel entries chain depth stats st).2.2.nextId := by
  intro maxD entries chain depth
  induction entries with
  | nil =>
    intro stats st hwf
    simp [Loader.processEntries]
  | cons e rest ihr =>
    intro stats st hwf
    cases e with
    | arc name spec =>
      simp only [Loader.processEntries]
      have h1 := harc maxD name spec chain (depth + 1)
        { stats with nested_archives := stats.nested_archives + 1 } st hwf
      have hwf2 : (Loader.processArchiveRec maxD fuel name spec chain (depth + 1)
          { stats with nested_archives := stats.nested_archives + 1 } st).2.2.WF := by
        intro d hd
        rw [h1.1] at hd
        exact lt_of_lt_of_le (hwf d hd) h1.2
      have h2 := ihr
        (Loader.processArchiveRec maxD fuel name spec chain (depth + 1)
          { stats with nested_archives := stats.nested_archives + 1 } st).2.1
        (Loader.processArchiveRec maxD fuel name spec chain (depth + 1)
          { stats with nested_archives := stats.nested_archives + 1 } st).2.2 hwf2
      exact ⟨h2.1.trans h1.1, le_trans h1.2 h2.2⟩
    | doc name suffix load =>
      rw [Loader.processEntries.eq_def]
      dsimp only
      cases load with
      | ok contents =>
        dsimp only
        split
        · split
          · exact ihr _ _ hwf
          · exact ihr _ _ hwf
        · exact ihr _ _ hwf
      | error e =>
        dsimp only
        split
        · exact ihr _ _ hwf
        · exact ihr _ _ hwf

theorem arc_fs (fuel : Nat) :
    ∀ (maxD : Nat) (name : String) (spec : Loader.ArcSpec)
      (chain : List String) (depth : Nat) (stats : Loader.Stats)
      (st : Loader.FsState), st.WF →
      (Loader.processArchiveRec maxD fuel name spec chain depth stats st).2.2.live
        = st.live ∧
      st.nextId ≤
        (Loader.processArchiveRec maxD fuel name spec chain depth stats st).2.2.nextId := by
  induction fuel with
  | zero =>
    intro maxD name spec chain depth stats st _
    unfold Loader.processArchiveRec
    split
    · exact ⟨rfl, le_refl _⟩
    · exact ⟨rfl, le_refl _⟩
  | succ fuel ihf =>
    have ihent := entries_fs_of_arc fuel ihf
    intro maxD name spec chain depth stats st hwf
    unfold Loader.processArchiveRec
    split
    · exact ⟨rfl, le_refl _⟩
    · cases spec with
      | preFail msg => exact ⟨rfl, le_refl _⟩
      | postFail msg => exact ⟨rfl, Nat.le_succ _⟩
      | ok entries =>
        simp only [Loader.extractFs]
        have hwf1 : (⟨st.nextId + 1, st.live ++ [st.nextId]⟩ : Loader.FsState).WF := by
          intro d hd
          have hd' : d ∈ st.live ++ [st.nextId] := hd
          show d < st.nextId + 1
          rcases List.mem_append.mp hd' with hd2 | hd2
          · exact lt_trans (hwf d hd2) (Nat.lt_succ_self _)
          · simp at hd2
            omega
        have hent := ihent maxD entries (chain ++ [name]) depth stats
          ⟨st.nextId + 1, st.live ++ [st.nextId]⟩ hwf1
        constructor
        · show (Loader.cleanupFs st.nextId _).live = st.live
          unfold Loader.cleanupFs
          rw [hent.1]
          rw [List.filter_append]
          have h1 : st.live.filter (· ≠ st.nextId) = st.live :=
            List.filter_eq_self.mpr fun a ha => by
              simp [Nat.ne_of_lt (hwf a ha)]
          have h2 : ([st.nextId] : List Nat).filter (· ≠ st.nextId) = [] := by simp
          rw [h1, h2, List.append_nil]
        · show st.nextId ≤ (Loader.cleanupFs st.nextId _).nextId
          unfold Loader.cleanupFs
          exact le_trans (Nat.le_succ _) hent.2

/-- C5: for every archive-processing call of the recursive loader — every
format, nesting depth, and exit path (success, pre- or post-workspace
validation rejection, extraction error, per-file loader error) — the set
of temporary workspace directories on disk after the call equals the set
before it: the workspace created for the call is always removed, and
nobody else's is.  Stated both for an arbitrary recursion level and for
the top-level `load_archive`. -/
theorem workspace_cleaned_on_every_path (maxDepth fuel : Nat) (name : String)
    (spec : Loader.ArcSpec) (chain : List String) (depth : Nat)
    (stats : Loader.Stats) (st : Loader.FsState) (hwf : st.WF) :
    (Loader.processArchiveRec maxDepth fuel name spec chain depth stats st).2.2.live
      = st.live ∧
    (Loader.load_archive name spec st).2.2.live = st.live := by
  refine ⟨(arc_fs fuel maxDepth name spec chain depth stats st hwf).1, ?_⟩
  unfold Loader.load_archive
  exact (arc_fs _ _ name spec [] 0 Loader.Stats.empty st hwf).1

/-- Witness for C5: an archive containing one loadable file and one
corrupt nested archive is processed starting from an empty disk, and no
workspace directory remains afterwards. -/
theorem workspace_cleaned_witness :
    (Loader.processArchiveRec 3 4 "docs.zip"
      (.ok [.doc "a.txt" ".txt" (.ok ["x"]), .arc "bad.zip" (.postFail "corrupt")])
      [] 0 Loader.Stats.empty ⟨0, []⟩).2.2.live = ([] : List Nat) ∧
    (Loader.load_archive "docs.zip"
      (.ok [.doc "a.txt" ".txt" (.ok ["x"]), .arc "bad.zip" (.postFail "corrupt")])
      ⟨0, []⟩).2.2.live = ([] : List Nat) :=
  workspace_cleaned_on_every_path 3 4 "docs.zip"
    (.ok [.doc "a.txt" ".txt" (.ok ["x"]), .arc "bad.zip" (.postFail "corrupt")])
    [] 0 Loader.Stats.empty ⟨0, []⟩ (by intro d hd; simp at hd)

/-- C1 (code bug): `IngestionService._process_archive` iterates
`stats.processed_files`, but the `ArchiveProcessingStats` dataclass
declares no `processed_files` field — attribute lookup fails, so every
archive upload raises `AttributeError` instead of returning an
`IngestionResult` whose processed-files list carries per-file chunk
counts and provenance; in particular it fails on the stats produced for a
concrete one-file archive. -/
theorem ingestion_processed_files_attribute_error :
    Ingestion.statsHasAttr "processed_files" = false ∧
    (∀ (stats : Loader.Stats) (chunks_count : Nat),
      Ingestion.process_archive_service stats chunks_count =
        .error "AttributeError: ArchiveProcessingStats has no attribute processed_files") ∧
    Ingestion.process_archive_service
      (Loader.load_archive "docs.zip"
        (.ok [.doc "a.txt" ".txt" (.ok ["text"])]) ⟨0, []⟩).2.1 3 =
      .error "AttributeError: ArchiveProcessingStats has no attribute processed_files" := by
  have h1 : Ingestion.statsHasAttr "processed_files" = false := by decide
  have h2 : ∀ (stats : Loader.Stats) (chunks_count : Nat),
      Ingestion.process_archive_service stats chunks_count =
        .error "AttributeError: ArchiveProcessingStats has no attribute processed_files" := by
    intro stats chunks_count
    simp [Ingestion.process_archive_service, h1]
  exact ⟨h1, h2, h2 _ 3⟩

/-- C4 counterexample: with `MAX_NESTED_DEPTH = 1`, an archive nested
three levels deep (`outer.zip → mid.zip → inner.zip`, with a supported
file at each level) records the depth-exceeded error for the archive at
depth 1 — the chain in the error is `outer.zip → mid.zip`, the innermost
archive is never even seen — and yields only the depth-0 document `A`:
the depth-1 document `B` claimed by the spec is not yielded. -/
theorem depth_limit_one_cex :
    Loader.processArchiveRec 1 2 "outer.zip"
      (.ok [.arc "mid.zip" (.ok [.doc "b.txt" ".txt" (.ok ["B"]),
              .arc "inner.zip" (.ok [.doc "c.txt" ".txt" (.ok ["C"])])]),
            .doc "a.txt" ".txt" (.ok ["A"])])
      [] 0 Loader.Stats.empty ⟨0, []⟩ =
      ([⟨"A", some "outer.zip"⟩],
       { files_processed := 1, files_skipped := 0, files_failed := 0,
         nested_archives := 1,
         errors := [Loader.depthErrorMsg 1 ["outer.zip", "mid.zip"]] },
       ⟨1, []⟩) := by
  have hjoin : Loader.joinChain ["outer.zip"] = "outer.zip" := by decide
  simp [Loader.processArchiveRec.eq_def, Loader.processEntries.eq_def,
    Loader.extractFs, Loader.cleanupFs, Loader.Stats.empty, hjoin,
    Loader.SUPPORTED_EXTENSIONS]

/-- C4 amended: with `MAX_NESTED_DEPTH = 1`, processing an archive whose
workspace holds a nested archive (of arbitrary content and nesting,
covering the three-level instance) followed by further entries records
one depth-exceeded error naming the chain `top → nested` — the nested
archive at depth 1 is rejected unextracted, so nothing from depth ≥ 1 is
yielded — and the parent job is not aborted: the remaining depth-0
entries are processed exactly as the loader processes them from that
point, so every supported depth-0 file still yields its documents. -/
theorem depth_limit_one_amended (n0 n1 : String) (specMid : Loader.ArcSpec)
    (entries0 : List Loader.Entry) (stats : Loader.Stats) (st : Loader.FsState) :
    Loader.processArchiveRec 1 2 n0 (.ok (.arc n1 specMid :: entries0)) [] 0
      stats st =
      (let r := Loader.processEntries 1 1 entries0 [n0] 0
          { stats with nested_archives := stats.nested_archives + 1,
                       errors := stats.errors ++ [Loader.depthErrorMsg 1 [n0, n1]] }
          ⟨st.nextId + 1, st.live ++ [st.nextId]⟩
       (r.1, r.2.1, Loader.cleanupFs st.nextId r.2.2)) := by
  rw [Loader.processArchiveRec.eq_def]
  dsimp only [Loader.extractFs]
  rw [if_neg (by omega)]
  rw [Loader.processEntries.eq_def]
  dsimp only
  rw [Loader.processArchiveRec.eq_def]
  rw [if_pos (by omega)]
  simp

end Claims
